import Mathlib

/-!
Verification of the node power-lifecycle orchestrator
(contribs/cray/capmc_resume.c): node-set codec, response classification,
per-phase retry loops, convergence polling and the orchestration in main.
The C sources are shallowly embedded as executable Lean definitions.
-/

set_option linter.unusedVariables false

/-- True for an ASCII decimal digit, as the C source tests it
(`node_names[i] >= '0' && node_names[i] <= '9'`). -/
def isDigitChar (c : Char) : Bool := ('0' ≤ c) && (c ≤ '9')

/-- ASCII lower-casing of one character, as used by strcasestr/strcasecmp. -/
def lowerChar (c : Char) : Char :=
  if ('A' ≤ c) && (c ≤ 'Z') then Char.ofNat (c.toNat + 32) else c

/-- Does the haystack start with the needle (character-wise equality)? -/
def startsWithChars : List Char → List Char → Bool
  | _, [] => true
  | [], _ :: _ => false
  | c :: cs, d :: ds => (c == d) && startsWithChars cs ds

/-- Substring search: the model of C strstr (needle occurs at some offset). -/
def containsSub : List Char → List Char → Bool
  | [], needle => needle.isEmpty
  | c :: cs, needle => startsWithChars (c :: cs) needle || containsSub cs needle

/-- Case-insensitive substring search: the model of C strcasestr. -/
def containsCI (hay needle : List Char) : Bool :=
  containsSub (hay.map lowerChar) (needle.map lowerChar)

/-- Model of the C digit-accumulation loop
`nid_index = nid_index * 10 + (node_names[i++] - '0')`: consume the leading
digits of the list, returning the accumulated value and the remainder. -/
def parseDigits : List Char → Nat → Nat × List Char
  | [], acc => (acc, [])
  | c :: cs, acc =>
    if isDigitChar c then parseDigits cs (acc * 10 + (c.toNat - 48))
    else (acc, c :: cs)

/-- One execution of the scanning loop of `_node_names_2_nid_list`.  Each
iteration of the C `for` loop corresponds to one recursive step: a non-digit
character is skipped; a digit starts a token (leading zeros dropped, a `[`
directly after them skipped, the digit run accumulated), the token is added to
the bitmap (`bit_nset last nid` when a dash preceded and `last <= nid`,
otherwise `bit_set nid`), and the delimiter after the token updates the dash
state (`is_dash = (c == '-')`, recording `last`) and is consumed by the `for`
increment.  `fuel` bounds the number of loop iterations. -/
def decodeLoop : Nat → List Char → Bool → Nat → Finset Nat → Finset Nat
  | 0, _, _, _, acc => acc
  | _ + 1, [], _, _, acc => acc
  | fuel + 1, c :: cs, isDash, last, acc =>
    if isDigitChar c then
      let cs1 := List.dropWhile (fun x => x == '0') (c :: cs)
      let cs2 := if cs1.head? == some '[' then cs1.tail else cs1
      let p := parseDigits cs2 0
      let acc2 := if isDash && decide (last ≤ p.1) then acc ∪ Finset.Icc last p.1
                  else insert p.1 acc
      match p.2 with
      | [] => acc2
      | d :: rest =>
          decodeLoop fuel rest (d == '-') (if d == '-' then p.1 else last) acc2
    else
      decodeLoop fuel cs isDash last acc

/-- The node-index set denoted by a hostname expression: the effect of
`_node_names_2_nid_list` on the (initially empty) node bitmap.  One fuel unit
per character suffices because every loop iteration consumes at least one
character. -/
def node_names_2_nid_list (names : List Char) : Finset Nat :=
  decodeLoop (names.length + 1) names false 0 ∅

/-- The decimal digit characters (value below ten). -/
def digitChar10 : Nat → Char
  | 0 => '0'
  | 1 => '1'
  | 2 => '2'
  | 3 => '3'
  | 4 => '4'
  | 5 => '5'
  | 6 => '6'
  | 7 => '7'
  | 8 => '8'
  | 9 => '9'
  | _ + 10 => '?'

/-- Big-endian decimal rendering, by repeated division; fuel n + 1 always
suffices since the argument strictly shrinks. -/
def natToCharsAux : Nat → Nat → List Char
  | 0, _ => []
  | fuel + 1, n =>
    if n < 10 then [digitChar10 n]
    else natToCharsAux fuel (n / 10) ++ [digitChar10 (n % 10)]

/-- Decimal rendering of a node index (no leading zeros; zero is "0"). -/
def natToChars (n : Nat) : List Char := natToCharsAux (n + 1) n

/-- Group a strictly increasing index list into maximal consecutive runs;
`(a, b)` is the run currently being extended. -/
def toRunsGo (a b : Nat) : List Nat → List (Nat × Nat)
  | [] => [(a, b)]
  | y :: ys => if y = b + 1 then toRunsGo a y ys else (a, b) :: toRunsGo y y ys

/-- Maximal consecutive runs of a strictly increasing index list. -/
def toRuns : List Nat → List (Nat × Nat)
  | [] => []
  | x :: xs => toRunsGo x x xs

/-- Render one run: a single index plain, a longer run as "a-b". -/
def renderRun (r : Nat × Nat) : List Char :=
  if r.1 = r.2 then natToChars r.1 else natToChars r.1 ++ '-' :: natToChars r.2

/-- Render runs separated by commas. -/
def renderRuns : List (Nat × Nat) → List Char
  | [] => []
  | [r] => renderRun r
  | r :: r2 :: rs => renderRun r ++ ',' :: renderRuns (r2 :: rs)

/-- The members of a node set listed in ascending order, as a walk of the
bitmap from bit 0 up to the highest set bit. -/
def sortedIndices (s : Finset Nat) : List Nat :=
  (List.range (s.sup id + 1)).filter (fun i => decide (i ∈ s))

/-- Modelled from the spec: `bit_fmt` (the Encode half of NodeSetCodec) is
not among the repository sources provided here; per the spec it "renders a
NodeSet back into the compact range syntax", i.e. maximal ascending runs
written "a-b", single indices written plain, comma separated (for example the
set with elements 2,3,4,5,7 renders as "2-5,7"). -/
def bit_fmt (s : Finset Nat) : List Char :=
  renderRuns (toRuns (sortedIndices s))

/-- The outcome of one `_run_script` call: the child's exit status and its
captured (merged stdout/stderr) text.  `_run_script` never returns a NULL
text, so the output is always present. -/
structure CmdResult where
  status : Int
  output : List Char
deriving DecidableEq

/-- The "Success" marker searched for case-insensitively. -/
def successChars : List Char := "Success".toList

/-- The transient pattern recognized by every phase. -/
def lookupChars : List Char := "Could not lookup".toList

/-- The extra transient pattern recognized only by the node_reinit phase. -/
def iseChars : List Char := "Internal server error".toList

/-- The success test of each phase loop:
`(status == 0) || (resp_msg && strcasestr(resp_msg, "Success"))`. -/
def isSuccess (r : CmdResult) : Bool :=
  (r.status == 0) || containsCI r.output successChars

/-- Transient test of the set_mcdram_cfg and set_numa_cfg phases:
`strstr(resp_msg, "Could not lookup")`. -/
def mode_transient (out : List Char) : Bool := containsSub out lookupChars

/-- Transient test of the node_reinit phase:
`strstr(resp_msg, "Could not lookup") || strstr(resp_msg, "Internal server error")`. -/
def reinit_transient (out : List Char) : Bool :=
  containsSub out lookupChars || containsSub out iseChars

/-- Observable outcome of one phase of `_update_all_nodes`: whether the phase
ended in success, how many times it ran the command, and how many one-second
sleeps it performed. -/
structure PhaseOut where
  ok : Bool
  attempts : Nat
  sleeps : Nat
deriving DecidableEq

/-- One retry loop of `_update_all_nodes` (`for (retry = 0; ; retry++)`).
`results i` is the outcome of the i-th `_run_script` call of the phase (the
command and its response are external).  `idx` is the current value of
`retry`; the budget argument models `capmc_retries + 1 - retry`, so the C
guard `retry <= capmc_retries` holds exactly when the budget is positive.  On
success the loop breaks; on a transient response with budget remaining it
sleeps one second and retries; otherwise it breaks with a fatal error. -/
def phaseLoop (results : Nat → CmdResult) (transient : List Char → Bool) :
    Nat → Nat → PhaseOut
  | idx, 0 =>
    if isSuccess (results idx) then ⟨true, idx + 1, 0⟩ else ⟨false, idx + 1, 0⟩
  | idx, b + 1 =>
    if isSuccess (results idx) then ⟨true, idx + 1, 0⟩
    else if transient (results idx).output then
      let o := phaseLoop results transient (idx + 1) b
      ⟨o.ok, o.attempts, o.sleeps + 1⟩
    else ⟨false, idx + 1, 0⟩

/-- Observable outcome of `_update_all_nodes`: overall result and the number
of `_run_script` calls made by each phase (zero when a phase is skipped or
never reached). -/
structure UpdateOut where
  ok : Bool
  mcdramAttempts : Nat
  numaAttempts : Nat
  reinitAttempts : Nat
deriving DecidableEq

/-- Model of `_update_all_nodes`: the set_mcdram_cfg phase runs when an
MCDRAM mode was parsed, the set_numa_cfg phase when a NUMA mode was parsed
and no earlier phase failed, and the node_reinit phase when no earlier phase
failed.  Each phase uses the retry loop with budget `capmc_retries + 1`; the
two mode phases recognize only the lookup pattern as transient, node_reinit
additionally recognizes the internal-server-error pattern. -/
def update_all_nodes (mcdramMode numaMode : Option (List Char))
    (capmcRetries : Nat)
    (mcdramResults numaResults reinitResults : Nat → CmdResult) : UpdateOut :=
  let p1 := match mcdramMode with
    | none => (⟨true, 0, 0⟩ : PhaseOut)
    | some _ => phaseLoop mcdramResults mode_transient 0 (capmcRetries + 1)
  if p1.ok = false then ⟨false, p1.attempts, 0, 0⟩
  else
    let p2 := match numaMode with
      | none => (⟨true, 0, 0⟩ : PhaseOut)
      | some _ => phaseLoop numaResults mode_transient 0 (capmcRetries + 1)
    if p2.ok = false then ⟨false, p1.attempts, p2.attempts, 0⟩
    else
      let p3 := phaseLoop reinitResults reinit_transient 0 (capmcRetries + 1)
      ⟨p3.ok, p1.attempts, p2.attempts, p3.attempts⟩

/-- Outcome of one iteration of `_wait_all_nodes_on` as seen from the loop:
`cmdSecs` is the wall-clock time the `capmc node_status` call took, `status`
its exit status, and `parsed` models the JSON handling of its output:
`none` when `json_tokener_parse` fails, `some none` when the document parses
but has no "on" key, and `some (some l)` when the "on" key holds the integer
node-index list `l` (as extracted by `_json_parse_nids`). -/
structure PollStep where
  cmdSecs : Nat
  status : Int
  parsed : Option (Option (List Nat))
deriving DecidableEq

/-- The `bit_clear` loop over the parsed "on" indices. -/
def clearNids (pending : Finset Nat) (nids : List Nat) : Finset Nat :=
  nids.foldl (fun p n => p.erase n) pending

/-- Model of `_wait_all_nodes_on`.  The loop runs while fewer than 30 * 60
seconds have elapsed and the pending bitmap is non-empty; each iteration
sleeps `capmc_poll_freq` seconds, runs `capmc node_status` (taking `cmdSecs`
seconds), breaks on a nonzero exit status or a JSON parse failure, and
otherwise clears the reported "on" indices from the pending bitmap.  Returns
the elapsed seconds at return, the remaining pending set, and the list of
elapsed times at which iterations started. -/
def wait_all_nodes_on (pollFreq : Nat) :
    Nat → Finset Nat → List PollStep → Nat × Finset Nat × List Nat
  | elapsed, pending, steps =>
    if 1800 ≤ elapsed ∨ pending = ∅ then (elapsed, pending, [])
    else
      match steps with
      | [] => (elapsed, pending, [])
      | s :: rest =>
        let e2 := elapsed + pollFreq + s.cmdSecs
        if s.status = 0 then
          match s.parsed with
          | none => (e2, pending, [elapsed])
          | some doc =>
            let r := wait_all_nodes_on pollFreq e2
                       (clearNids pending (doc.getD [])) rest
            (r.1, r.2.1, elapsed :: r.2.2)
        else (e2, pending, [elapsed])

/-- The externally visible requests main issues through its collaborators,
in program order. -/
inductive Event where
  | requeue : Nat → Event
  | revertNodes : Event
  | setFeatures : Event
  | pollStart : Event
deriving DecidableEq

/-- The NUMA-mode token vocabulary of main's feature scan. -/
def numaVocab : List (List Char) :=
  ["a2a".toList, "hemi".toList, "quad".toList, "snc2".toList, "snc4".toList]

/-- The MCDRAM-mode token vocabulary of main's feature scan. -/
def mcdramVocab : List (List Char) :=
  ["cache".toList, "split".toList, "equal".toList, "flat".toList]

/-- Case-insensitive string equality: the model of strcasecmp returning 0. -/
def eqCI (a b : List Char) : Bool := (a.map lowerChar) == (b.map lowerChar)

/-- The argc == 3 token scan of main: each comma-separated token is compared
case-insensitively against the NUMA vocabulary, then the MCDRAM vocabulary;
a match overwrites the corresponding slot, anything else is ignored.
Returns (mcdram_mode, numa_mode). -/
def parseModes (toks : List (List Char)) :
    Option (List Char) × Option (List Char) :=
  toks.foldl
    (fun acc tok =>
      if numaVocab.any (fun v => eqCI tok v) then (acc.1, some tok)
      else if mcdramVocab.any (fun v => eqCI tok v) then (some tok, acc.2)
      else acc)
    (none, none)

/-- Model of `strtol(s, NULL, 10)` on the non-negative decimal strings used
as SLURM_JOB_ID values: the value of the leading digit run (zero when the
string starts with a non-digit). -/
def strtolNat (cs : List Char) : Nat := (parseDigits cs 0).1

/-- The inputs of one run of main: its two command-line arguments (the
hostlist and, when argc == 3, the comma-split feature tokens), the
SLURM_JOB_ID environment variable, the configuration, the responses of the
external capmc command for each phase and for polling, and whether each
collaborator call succeeds. -/
structure MainEnv where
  hostlist : List Char
  featureToks : Option (List (List Char))
  jobIdEnv : Option (List Char)
  capmcRetries : Nat
  mcdramResults : Nat → CmdResult
  numaResults : Nat → CmdResult
  reinitResults : Nat → CmdResult
  pollFreq : Nat
  pollSteps : List PollStep
  requeueOk : Bool
  revertOk : Bool
  featureOk : Bool

/-- The modes main parses from its optional second argument. -/
def mainModes (env : MainEnv) : Option (List Char) × Option (List Char) :=
  match env.featureToks with
  | none => (none, none)
  | some toks => parseModes toks

/-- The `_update_all_nodes` call main makes. -/
def mainApply (env : MainEnv) : UpdateOut :=
  update_all_nodes (mainModes env).1 (mainModes env).2 env.capmcRetries
    env.mcdramResults env.numaResults env.reinitResults

/-- The job id main obtains: `strtol(getenv("SLURM_JOB_ID"))`, zero when the
variable is unset (or does not parse to a nonzero number). -/
def envJobId (env : MainEnv) : Nat :=
  match env.jobIdEnv with
  | none => 0
  | some s => strtolNat s

/-- Observable outcome of main: the process exit code, the collaborator
requests issued in order, and the poller's result. -/
structure MainOut where
  exitCode : Nat
  events : List Event
  pollOut : Nat × Finset Nat × List Nat

/-- Model of main after argument parsing: run `_update_all_nodes`; on
failure, requeue the job when a nonzero job id is in the environment, revert
the nodes' power state, and exit 1 (regardless of the collaborators'
results); on success, when a feature argument was given ask for the nodes'
active features to be set (its result becomes the final rc), then run
`_wait_all_nodes_on` on the decoded node set, and exit 0 exactly when rc is
still success. -/
def main_run (env : MainEnv) : MainOut :=
  if (mainApply env).ok = false then
    let jid := envJobId env
    ⟨1, (if jid ≠ 0 then [Event.requeue jid] else []) ++ [Event.revertNodes],
     (0, ∅, [])⟩
  else
    let pending := node_names_2_nid_list env.hostlist
    let poll := wait_all_nodes_on env.pollFreq 0 pending env.pollSteps
    let exitCode := if env.featureToks.isSome && !env.featureOk then 1 else 0
    ⟨exitCode,
     (if env.featureToks.isSome then [Event.setFeatures] else []) ++
       [Event.pollStart],
     poll⟩

/-! ### Supporting lemmas: digit characters and parsing -/

lemma digitChar10_isDigit (n : Nat) (h : n < 10) :
    isDigitChar (digitChar10 n) = true := by
  interval_cases n <;> decide

lemma digitChar10_val (n : Nat) (h : n < 10) : (digitChar10 n).toNat - 48 = n := by
  interval_cases n <;> decide

lemma digitChar10_ne_zero (n : Nat) (h0 : 0 < n) (h : n < 10) :
    (digitChar10 n == '0') = false := by
  interval_cases n <;> first | omega | decide

/-- The value accumulated by the digit loop over a digit run, starting
from `acc`. -/
def digitsVal (acc : Nat) (ds : List Char) : Nat :=
  ds.foldl (fun a c => a * 10 + (c.toNat - 48)) acc

lemma digitsVal_nil (acc : Nat) : digitsVal acc [] = acc := rfl

lemma digitsVal_cons (acc : Nat) (c : Char) (ds : List Char) :
    digitsVal acc (c :: ds) = digitsVal (acc * 10 + (c.toNat - 48)) ds := rfl

lemma digitsVal_append (acc : Nat) (l1 l2 : List Char) :
    digitsVal acc (l1 ++ l2) = digitsVal (digitsVal acc l1) l2 := by
  simp [digitsVal, List.foldl_append]

lemma parseDigits_append (ds cs : List Char) (acc : Nat)
    (hds : ∀ c ∈ ds, isDigitChar c = true)
    (hcs : ∀ d, cs.head? = some d → isDigitChar d = false) :
    parseDigits (ds ++ cs) acc = (digitsVal acc ds, cs) := by
  induction ds generalizing acc with
  | nil =>
    cases cs with
    | nil => simp [parseDigits, digitsVal]
    | cons d cs' => simp [parseDigits, hcs d rfl, digitsVal]
  | cons c ds' ih =>
    have hc : isDigitChar c = true := hds c (by simp)
    rw [List.cons_append]
    rw [show parseDigits (c :: (ds' ++ cs)) acc =
        parseDigits (ds' ++ cs) (acc * 10 + (c.toNat - 48)) by
      simp [parseDigits, hc]]
    rw [ih (acc * 10 + (c.toNat - 48)) (fun x hx => hds x (by simp [hx]))]
    rw [digitsVal_cons]

/-! ### Supporting lemmas: decimal rendering -/

lemma natToCharsAux_spec :
    ∀ fuel n, n < fuel →
      natToCharsAux fuel n ≠ [] ∧
      (∀ c ∈ natToCharsAux fuel n, isDigitChar c = true) ∧
      (∀ acc, digitsVal acc (natToCharsAux fuel n) =
        acc * 10 ^ (natToCharsAux fuel n).length + n) ∧
      (∀ c cs, natToCharsAux fuel n = c :: cs → 0 < n → (c == '0') = false) := by
  intro fuel
  induction fuel with
  | zero => intro n hn; omega
  | succ f ih =>
    intro n hn
    by_cases h10 : n < 10
    · rw [show natToCharsAux (f + 1) n = [digitChar10 n] by simp [natToCharsAux, h10]]
      refine ⟨by simp, ?_, ?_, ?_⟩
      · intro c hc
        rw [List.mem_singleton] at hc
        subst hc
        exact digitChar10_isDigit n h10
      · intro acc
        rw [digitsVal_cons, digitsVal_nil, digitChar10_val n h10]
        simp
      · intro c cs hcons h0
        have hc : c = digitChar10 n := by
          have := congrArg (List.head? ·) hcons
          simpa using this.symm
        subst hc
        exact digitChar10_ne_zero n h0 h10
    · rw [show natToCharsAux (f + 1) n =
          natToCharsAux f (n / 10) ++ [digitChar10 (n % 10)] by
        simp [natToCharsAux, h10]]
      have hdivlt : n / 10 < f := by
        have h1 : n / 10 < n := Nat.div_lt_self (by omega) (by omega)
        omega
      obtain ⟨hne, hdig, hval, hhead⟩ := ih (n / 10) hdivlt
      refine ⟨by simp, ?_, ?_, ?_⟩
      · intro c hc
        rw [List.mem_append] at hc
        rcases hc with hc | hc
        · exact hdig c hc
        · rw [List.mem_singleton] at hc
          subst hc
          exact digitChar10_isDigit _ (Nat.mod_lt _ (by omega))
      · intro acc
        rw [digitsVal_append, hval acc, digitsVal_cons, digitsVal_nil,
          digitChar10_val _ (Nat.mod_lt _ (by omega))]
        rw [List.length_append, List.length_singleton, pow_succ, ← mul_assoc]
        generalize acc * 10 ^ (natToCharsAux f (n / 10)).length = B
        omega
      · intro c cs hcons h0
        obtain ⟨c0, cs0, hc0⟩ := List.exists_cons_of_ne_nil hne
        rw [hc0, List.cons_append] at hcons
        have hcc : c = c0 := by
          have := congrArg (List.head? ·) hcons
          simpa using this.symm
        subst hcc
        exact hhead _ _ hc0 (by omega)

lemma natToChars_ne_nil (n : Nat) : natToChars n ≠ [] :=
  (natToCharsAux_spec (n + 1) n (by omega)).1

lemma natToChars_digits (n : Nat) : ∀ c ∈ natToChars n, isDigitChar c = true :=
  (natToCharsAux_spec (n + 1) n (by omega)).2.1

lemma digitsVal_natToChars (n : Nat) : digitsVal 0 (natToChars n) = n := by
  have := (natToCharsAux_spec (n + 1) n (by omega)).2.2.1 0
  simpa [natToChars] using this

lemma natToChars_head_ne_zero (n : Nat) (c : Char) (cs : List Char)
    (hcons : natToChars n = c :: cs) (h0 : 0 < n) : (c == '0') = false :=
  (natToCharsAux_spec (n + 1) n (by omega)).2.2.2 c cs hcons h0

lemma natToChars_zero : natToChars 0 = ['0'] := rfl

/-! ### Supporting lemmas: the decode loop -/

/-- Safe continuation after a rendered number: the next character, if any, is
neither a digit nor an opening bracket. -/
def headSafe : List Char → Bool
  | [] => true
  | d :: _ => !(isDigitChar d) && !(d == '[')

lemma headSafe_not_digit (cs : List Char) (h : headSafe cs = true) :
    ∀ d, cs.head? = some d → isDigitChar d = false := by
  intro d hd
  cases cs with
  | nil => simp at hd
  | cons x xs =>
    simp at hd
    subst hd
    simp [headSafe, Bool.and_eq_true] at h
    simpa using h.1

lemma digit_ne_lbracket (c : Char) (h : isDigitChar c = true) :
    (c == '[') = false := by
  cases hbe : (c == '[') with
  | false => rfl
  | true =>
    exfalso
    have hc : c = '[' := eq_of_beq hbe
    subst hc
    simp [isDigitChar] at h

lemma digit_ne_dash (c : Char) (h : isDigitChar c = true) :
    (c == '-') = false := by
  cases hbe : (c == '-') with
  | false => rfl
  | true =>
    exfalso
    have hc : c = '-' := eq_of_beq hbe
    subst hc
    simp [isDigitChar] at h

lemma dropWhile_zero_of_headSafe (cs : List Char) (h : headSafe cs = true) :
    List.dropWhile (fun x => x == '0') cs = cs := by
  cases cs with
  | nil => rfl
  | cons x xs =>
    have hx : isDigitChar x = false := by
      simp [headSafe, Bool.and_eq_true] at h
      simpa using h.1
    have hx0 : (x == '0') = false := by
      cases hbe : (x == '0') with
      | false => rfl
      | true =>
        exfalso
        have : x = '0' := eq_of_beq hbe
        subst this
        simp [isDigitChar] at hx
    simp [List.dropWhile_cons, hx0]

lemma decodeLoop_nil (fuel last : Nat) (dash : Bool) (acc : Finset Nat) :
    decodeLoop fuel [] dash last acc = acc := by
  cases fuel <;> rfl

lemma decodeLoop_skip (fuel last : Nat) (c : Char) (cs : List Char)
    (dash : Bool) (acc : Finset Nat) (hc : isDigitChar c = false) :
    decodeLoop (fuel + 1) (c :: cs) dash last acc =
      decodeLoop fuel cs dash last acc := by
  simp [decodeLoop, hc]

lemma headSafe_cons (d : Char) (rest : List Char) (h : headSafe (d :: rest) = true) :
    isDigitChar d = false ∧ (d == '[') = false := by
  simpa [headSafe, Bool.and_eq_true, Bool.not_eq_true'] using h

/-- Stepping lemma: the decode loop entered at a rendered number followed by a
non-digit, non-bracket continuation performs exactly the corresponding
bitmap update and dash-state transition of the C loop. -/
lemma decodeLoop_number (fuel n last : Nat) (dash : Bool) (acc : Finset Nat)
    (cs : List Char) (hcs : headSafe cs = true) :
    decodeLoop (fuel + 1) (natToChars n ++ cs) dash last acc =
      (let acc2 := if dash && decide (last ≤ n) then acc ∪ Finset.Icc last n
                   else insert n acc
       match cs with
       | [] => acc2
       | d :: rest =>
           decodeLoop fuel rest (d == '-') (if d == '-' then n else last) acc2) := by
  have hnotdig : ∀ d, cs.head? = some d → isDigitChar d = false :=
    headSafe_not_digit cs hcs
  have hparse : parseDigits cs 0 = (0, cs) := by
    cases cs with
    | nil => rfl
    | cons d rest => simp [parseDigits, hnotdig d rfl]
  have hheadbr : (cs.head? == some '[') = false := by
    cases cs with
    | nil => rfl
    | cons d rest => exact (headSafe_cons d rest hcs).2
  rcases Nat.eq_zero_or_pos n with h0 | hpos
  · subst h0
    rw [natToChars_zero, List.singleton_append]
    have hdw : List.dropWhile (fun x => x == '0') ('0' :: cs) = cs := by
      rw [List.dropWhile_cons]
      simp only [show (('0' : Char) == '0') = true from rfl, if_true]
      exact dropWhile_zero_of_headSafe cs hcs
    simp only [decodeLoop, show isDigitChar '0' = true from rfl, if_true, hdw,
      hheadbr, Bool.false_eq_true, if_false, hparse]
    cases cs with
    | nil => rfl
    | cons d rest => rfl
  · obtain ⟨c0, cs0, hn0⟩ := List.exists_cons_of_ne_nil (natToChars_ne_nil n)
    have hc0dig : isDigitChar c0 = true :=
      natToChars_digits n c0 (by rw [hn0]; exact List.mem_cons_self _ _)
    have hc0nz : (c0 == '0') = false := natToChars_head_ne_zero n c0 cs0 hn0 hpos
    have hc0br : ((some c0 : Option Char) == some '[') = false :=
      digit_ne_lbracket c0 hc0dig
    have hp : parseDigits (c0 :: (cs0 ++ cs)) 0 = (n, cs) := by
      rw [← List.cons_append]
      rw [parseDigits_append (c0 :: cs0) cs 0
        (by rw [← hn0]; exact natToChars_digits n) hnotdig]
      rw [show digitsVal 0 (c0 :: cs0) = n from by
        rw [← hn0]; exact digitsVal_natToChars n]
    have hdw : List.dropWhile (fun x => x == '0') (c0 :: (cs0 ++ cs)) =
        c0 :: (cs0 ++ cs) := by
      rw [List.dropWhile_cons]
      simp only [hc0nz, Bool.false_eq_true, if_false]
    rw [hn0, List.cons_append]
    simp only [decodeLoop, hc0dig, if_true, hdw, List.head?_cons, hc0br,
      Bool.false_eq_true, if_false, hp]
    cases cs with
    | nil => rfl
    | cons d rest => rfl

/-! ### Claim C2: bracketed range expansion -/

/-- C2 (amended): decoding a bracketed numeric range expression sets exactly
the indices a through b inclusive when the range is ascending (a ≤ b); a
descending range a-b (b < a) sets exactly the two endpoint indices a and b
(the leading index was already set when it was scanned, before the dash was
seen), not only the trailing index. -/
theorem c2_range_expansion (a b : Nat) :
    node_names_2_nid_list
        ('n' :: '[' :: (natToChars a ++ '-' :: (natToChars b ++ [']']))) =
      if a ≤ b then Finset.Icc a b else {b, a} := by
  have hlen : ('n' :: '[' :: (natToChars a ++ '-' ::
      (natToChars b ++ [']']))).length + 1 =
      (natToChars a).length + (natToChars b).length + 4 + 1 := by
    simp [List.length_cons, List.length_append]
    omega
  rw [node_names_2_nid_list, hlen]
  have step1 : decodeLoop ((natToChars a).length + (natToChars b).length + 4 + 1)
      ('n' :: '[' :: (natToChars a ++ '-' :: (natToChars b ++ [']'])))
      false 0 ∅ =
      decodeLoop ((natToChars a).length + (natToChars b).length + 4)
      ('[' :: (natToChars a ++ '-' :: (natToChars b ++ [']']))) false 0 ∅ :=
    decodeLoop_skip _ _ _ _ _ _ (by decide)
  have step2 : decodeLoop ((natToChars a).length + (natToChars b).length + 4)
      ('[' :: (natToChars a ++ '-' :: (natToChars b ++ [']']))) false 0 ∅ =
      decodeLoop ((natToChars a).length + (natToChars b).length + 3)
      (natToChars a ++ '-' :: (natToChars b ++ [']'])) false 0 ∅ := by
    exact decodeLoop_skip _ _ _ _ _ _ (by decide)
  have step3 : decodeLoop ((natToChars a).length + (natToChars b).length + 3)
      (natToChars a ++ '-' :: (natToChars b ++ [']'])) false 0 ∅ =
      decodeLoop ((natToChars a).length + (natToChars b).length + 2)
      (natToChars b ++ [']']) true a (insert a ∅) := by
    have h := decodeLoop_number
      ((natToChars a).length + (natToChars b).length + 2) a 0 false ∅
      ('-' :: (natToChars b ++ [']'])) (by rfl)
    simpa using h
  have step4 : decodeLoop ((natToChars a).length + (natToChars b).length + 2)
      (natToChars b ++ [']']) true a (insert a ∅) =
      (if a ≤ b then insert a ∅ ∪ Finset.Icc a b else insert b (insert a ∅)) := by
    have h := decodeLoop_number
      ((natToChars a).length + (natToChars b).length + 1) b a true (insert a ∅)
      [']'] (by rfl)
    simpa [decodeLoop_nil, decide_eq_true_eq, Bool.true_and] using h
  rw [step1, step2, step3, step4]
  by_cases hab : a ≤ b
  · rw [if_pos hab, if_pos hab, Finset.insert_union, Finset.empty_union,
      Finset.insert_eq_self.2 (Finset.mem_Icc.2 ⟨le_refl a, hab⟩)]
  · rw [if_neg hab, if_neg hab]
    rfl

/-- C2 counterexample to the claim as stated: the descending range
expression "n[5-2]" decodes to the two-element set with members 2 and 5,
not to the singleton set with member 2. -/
theorem c2_descending_counterexample :
    node_names_2_nid_list ("n[5-2]".toList) = ({2, 5} : Finset Nat) ∧
    node_names_2_nid_list ("n[5-2]".toList) ≠ ({2} : Finset Nat) := by
  decide

/-! ### Claim C6: encode/decode round trip -/

/-- The node set denoted by a run list: the union of its inclusive ranges. -/
def runsUnion : List (Nat × Nat) → Finset Nat
  | [] => ∅
  | r :: rs => Finset.Icc r.1 r.2 ∪ runsUnion rs

lemma renderRun_length (r : Nat × Nat) : 1 ≤ (renderRun r).length := by
  rw [renderRun]
  split
  · cases h : natToChars r.1 with
    | nil => exact absurd h (natToChars_ne_nil r.1)
    | cons c cs => simp [h]
  · simp [List.length_append]
    omega

lemma renderRuns_length (runs : List (Nat × Nat)) :
    2 * runs.length ≤ (renderRuns runs).length + 1 := by
  induction runs with
  | nil => simp [renderRuns]
  | cons r rest ih =>
    cases rest with
    | nil =>
      have := renderRun_length r
      simp only [renderRuns, List.length_singleton]
      omega
    | cons r2 rs =>
      rw [renderRuns]
      have h1 := renderRun_length r
      simp only [List.length_append, List.length_cons] at *
      omega

lemma union_insert_absorb (a b : Nat) (s u : Finset Nat) (hab : a ≤ b) :
    (insert a s ∪ Finset.Icc a b) ∪ u = s ∪ (Finset.Icc a b ∪ u) := by
  have ha : a ∈ Finset.Icc a b := Finset.mem_Icc.2 ⟨le_refl _, hab⟩
  rw [Finset.insert_union, Finset.insert_union,
    Finset.insert_eq_self.2 (Finset.mem_union_left _ (Finset.mem_union_right _ ha)),
    Finset.union_assoc]

lemma union_insert_single (a : Nat) (s u : Finset Nat) :
    insert a s ∪ u = s ∪ (Finset.Icc a a ∪ u) := by
  rw [Finset.Icc_self, ← Finset.insert_eq, Finset.union_insert,
    Finset.insert_union]

/-- Decoding a rendered run list (entered outside any dash state) adds
exactly the union of the runs to the accumulated set, for any valid run list
and sufficient fuel. -/
lemma decode_renderRuns :
    ∀ (runs : List (Nat × Nat)) (fuel last : Nat) (acc : Finset Nat),
      (∀ r ∈ runs, r.1 ≤ r.2) → 2 * runs.length ≤ fuel →
      decodeLoop fuel (renderRuns runs) false last acc = acc ∪ runsUnion runs := by
  intro runs
  induction runs with
  | nil =>
    intro fuel last acc _ _
    simp [renderRuns, runsUnion, decodeLoop_nil]
  | cons r rest ih =>
    intro fuel last acc hvalid hfuel
    have hr : r.1 ≤ r.2 := hvalid r (by simp)
    obtain ⟨f, rfl⟩ : ∃ f, fuel = f + 1 := ⟨fuel - 1, by simp at hfuel; omega⟩
    cases rest with
    | nil =>
      rw [show renderRuns [r] = renderRun r from rfl, renderRun]
      by_cases hsingle : r.1 = r.2
      · rw [if_pos hsingle]
        have h := decodeLoop_number f r.1 last false acc [] (by rfl)
        rw [List.append_nil] at h
        rw [h]
        simp only [Bool.false_and, Bool.false_eq_true, if_false]
        rw [show runsUnion [r] = Finset.Icc r.1 r.2 ∪ ∅ from rfl, ← hsingle,
          Finset.union_empty, Finset.Icc_self, Finset.union_comm]
        exact Finset.insert_eq r.1 acc
      · rw [if_neg hsingle]
        obtain ⟨f2, rfl⟩ : ∃ f2, f = f2 + 1 := ⟨f - 1, by simp at hfuel; omega⟩
        have h1 := decodeLoop_number (f2 + 1) r.1 last false acc
          ('-' :: natToChars r.2) (by rfl)
        simp only [Bool.false_and, Bool.false_eq_true, if_false,
          show (('-' : Char) == '-') = true from rfl, if_true] at h1
        rw [h1]
        have h2 := decodeLoop_number f2 r.2 r.1 true (insert r.1 acc) [] (by rfl)
        rw [List.append_nil] at h2
        rw [h2]
        simp only [Bool.true_and, decide_eq_true_eq, if_pos hr,
          show runsUnion [r] = Finset.Icc r.1 r.2 ∪ ∅ from rfl, Finset.union_empty]
        rw [Finset.insert_union, Finset.insert_eq_self.2
          (Finset.mem_union_right _ (Finset.mem_Icc.2 ⟨le_refl _, hr⟩))]
    | cons r2 rs =>
      rw [renderRuns, renderRun]
      by_cases hsingle : r.1 = r.2
      · rw [if_pos hsingle]
        have h := decodeLoop_number f r.1 last false acc
          (',' :: renderRuns (r2 :: rs)) (by rfl)
        simp only [Bool.false_and, Bool.false_eq_true, if_false,
          show ((',' : Char) == '-') = false from rfl] at h
        rw [h]
        rw [ih f last (insert r.1 acc)
          (fun q hq => hvalid q (List.mem_cons_of_mem r hq))
          (by simp at hfuel ⊢; omega)]
        rw [show runsUnion (r :: r2 :: rs) =
          Finset.Icc r.1 r.2 ∪ runsUnion (r2 :: rs) from rfl, ← hsingle]
        exact union_insert_single r.1 acc (runsUnion (r2 :: rs))
      · rw [if_neg hsingle, List.append_assoc, List.cons_append]
        obtain ⟨f2, rfl⟩ : ∃ f2, f = f2 + 1 := ⟨f - 1, by simp at hfuel; omega⟩
        have h1 := decodeLoop_number (f2 + 1) r.1 last false acc
          ('-' :: (natToChars r.2 ++ ',' :: renderRuns (r2 :: rs))) (by rfl)
        simp only [Bool.false_and, Bool.false_eq_true, if_false,
          show (('-' : Char) == '-') = true from rfl, if_true] at h1
        rw [h1]
        have h2 := decodeLoop_number f2 r.2 r.1 true (insert r.1 acc)
          (',' :: renderRuns (r2 :: rs)) (by rfl)
        simp only [Bool.true_and, decide_eq_true_eq, if_pos hr,
          show ((',' : Char) == '-') = false from rfl, Bool.false_eq_true,
          if_false] at h2
        rw [h2]
        obtain ⟨f3, rfl⟩ : ∃ f3, f2 = f3 + 1 := ⟨f2 - 1, by simp at hfuel; omega⟩
        rw [ih (f3 + 1) r.1 (insert r.1 acc ∪ Finset.Icc r.1 r.2)
          (fun q hq => hvalid q (List.mem_cons_of_mem r hq))
          (by simp at hfuel ⊢; omega)]
        rw [show runsUnion (r :: r2 :: rs) =
          Finset.Icc r.1 r.2 ∪ runsUnion (r2 :: rs) from rfl]
        exact union_insert_absorb r.1 r.2 acc (runsUnion (r2 :: rs)) hr

lemma toRunsGo_valid :
    ∀ (xs : List Nat) (a b : Nat), a ≤ b → ∀ r ∈ toRunsGo a b xs, r.1 ≤ r.2 := by
  intro xs
  induction xs with
  | nil =>
    intro a b hab r hr
    rw [toRunsGo, List.mem_singleton] at hr
    rw [hr]
    exact hab
  | cons y ys ih =>
    intro a b hab r hr
    rw [toRunsGo] at hr
    by_cases hy : y = b + 1
    · rw [if_pos hy] at hr
      exact ih a y (by omega) r hr
    · rw [if_neg hy] at hr
      rcases List.mem_cons.1 hr with h | h
      · rw [h]
        exact hab
      · exact ih y y (le_refl y) r h

lemma toRunsGo_union :
    ∀ (xs : List Nat) (a b : Nat), a ≤ b →
      runsUnion (toRunsGo a b xs) = Finset.Icc a b ∪ xs.toFinset := by
  intro xs
  induction xs with
  | nil =>
    intro a b hab
    simp [toRunsGo, runsUnion]
  | cons y ys ih =>
    intro a b hab
    rw [toRunsGo]
    by_cases hy : y = b + 1
    · rw [if_pos hy, ih a y (by omega)]
      subst hy
      ext x
      simp only [Finset.mem_union, Finset.mem_Icc, List.toFinset_cons,
        Finset.mem_insert, List.mem_toFinset]
      constructor
      · rintro (⟨h1, h2⟩ | h)
        · by_cases hxb : x ≤ b
          · exact Or.inl ⟨h1, hxb⟩
          · exact Or.inr (Or.inl (by omega))
        · exact Or.inr (Or.inr h)
      · rintro (⟨h1, h2⟩ | rfl | h)
        · exact Or.inl ⟨h1, by omega⟩
        · exact Or.inl ⟨by omega, le_refl _⟩
        · exact Or.inr h
    · rw [if_neg hy, show runsUnion ((a, b) :: toRunsGo y y ys) =
        Finset.Icc a b ∪ runsUnion (toRunsGo y y ys) from rfl,
        ih y y (le_refl y), Finset.Icc_self]
      ext x
      simp only [Finset.mem_union, Finset.mem_singleton, List.toFinset_cons,
        Finset.mem_insert, List.mem_toFinset]

lemma mem_sortedIndices (s : Finset Nat) (x : Nat) :
    x ∈ sortedIndices s ↔ x ∈ s := by
  rw [sortedIndices]
  simp only [List.mem_filter, List.mem_range, decide_eq_true_eq]
  constructor
  · exact fun h => h.2
  · intro hx
    refine ⟨?_, hx⟩
    have : id x ≤ s.sup id := Finset.le_sup hx
    simp at this
    omega

lemma sortedIndices_toFinset (s : Finset Nat) :
    (sortedIndices s).toFinset = s := by
  ext x
  rw [List.mem_toFinset]
  exact mem_sortedIndices s x

/-- Decoding the rendered form of any node set yields that set back. -/
lemma decode_bit_fmt (s : Finset Nat) : node_names_2_nid_list (bit_fmt s) = s := by
  rw [node_names_2_nid_list, bit_fmt]
  cases hsi : sortedIndices s with
  | nil =>
    have hs : s = ∅ := by
      ext x
      simp only [Finset.not_mem_empty, iff_false]
      intro hx
      have hmem := (mem_sortedIndices s x).2 hx
      rw [hsi] at hmem
      simp at hmem
    rw [show toRuns [] = [] from rfl, show renderRuns [] = ([] : List Char) from rfl,
      decodeLoop_nil, hs]
  | cons x xs =>
    rw [show toRuns (x :: xs) = toRunsGo x x xs from rfl]
    rw [decode_renderRuns (toRunsGo x x xs) _ 0 ∅
      (toRunsGo_valid xs x x (le_refl x)) (renderRuns_length _)]
    rw [Finset.empty_union, toRunsGo_union xs x x (le_refl x), Finset.Icc_self]
    rw [show ({x} : Finset Nat) ∪ xs.toFinset = insert x xs.toFinset from
      (Finset.insert_eq x xs.toFinset).symm]
    rw [← List.toFinset_cons, ← hsi]
    exact sortedIndices_toFinset s

/-- C6: for every hostname-range expression accepted by Decode, re-encoding
the decoded node set and decoding again denotes the identical node index
set, so Encode round-trips every set Decode produces (Encode here is the
spec-modelled `bit_fmt`). -/
theorem c6_round_trip (expr : List Char) :
    node_names_2_nid_list (bit_fmt (node_names_2_nid_list expr)) =
      node_names_2_nid_list expr :=
  decode_bit_fmt (node_names_2_nid_list expr)

/-! ### Claims C1, C7, C8: response classification and the retry loops -/

lemma isSuccess_false (r : CmdResult) (h1 : (r.status == 0) = false)
    (h2 : containsCI r.output successChars = false) : isSuccess r = false := by
  simp [isSuccess, h1, h2]

lemma phaseLoop_success (results : Nat → CmdResult) (transient : List Char → Bool)
    (idx b : Nat) (h : isSuccess (results idx) = true) :
    phaseLoop results transient idx b = ⟨true, idx + 1, 0⟩ := by
  cases b <;> simp [phaseLoop, h]

lemma phaseLoop_allTransient (results : Nat → CmdResult)
    (transient : List Char → Bool)
    (hs : ∀ i, isSuccess (results i) = false)
    (ht : ∀ i, transient (results i).output = true) :
    ∀ b idx, phaseLoop results transient idx b = ⟨false, idx + b + 1, b⟩ := by
  intro b
  induction b with
  | zero => intro idx; simp [phaseLoop, hs idx]
  | succ b ih =>
    intro idx
    have harith : idx + (b + 1) + 1 = idx + 1 + b + 1 := by omega
    rw [harith]
    simp [phaseLoop, hs idx, ht idx, ih (idx + 1)]

/-- A response stream whose every element is the transient lookup failure
(nonzero status, output containing the lookup pattern, no success marker). -/
def alwaysLookup : Nat → CmdResult := fun _ => ⟨1, lookupChars⟩

/-- A response stream whose every element reports plain success (status 0). -/
def alwaysOk : Nat → CmdResult := fun _ => ⟨0, []⟩

/-- C1 (amended): for each phase of Apply (memory-mode set, NUMA-mode set,
reboot), if every run of the external command is classified
RetryableTransient (nonzero exit status, no success marker, output containing
the phase's transient pattern), then Apply runs that command exactly
retryPolicy.maxRetries + 2 times before returning a fatal error: the C loop
retries while retry <= capmc_retries, so runs at retry = 0 through
maxRetries + 1 all take place. -/
theorem c1_retry_bound (retries : Nat) (m n : List Char)
    (r1 r2 r3 : Nat → CmdResult) :
    ((∀ i, ((r1 i).status == 0) = false ∧
        containsCI (r1 i).output successChars = false ∧
        mode_transient (r1 i).output = true) →
      update_all_nodes (some m) (some n) retries r1 r2 r3 =
        ⟨false, retries + 2, 0, 0⟩) ∧
    ((∀ i, isSuccess (r1 i) = true) →
     (∀ i, ((r2 i).status == 0) = false ∧
        containsCI (r2 i).output successChars = false ∧
        mode_transient (r2 i).output = true) →
      update_all_nodes (some m) (some n) retries r1 r2 r3 =
        ⟨false, 1, retries + 2, 0⟩) ∧
    ((∀ i, isSuccess (r1 i) = true) → (∀ i, isSuccess (r2 i) = true) →
     (∀ i, ((r3 i).status == 0) = false ∧
        containsCI (r3 i).output successChars = false ∧
        reinit_transient (r3 i).output = true) →
      update_all_nodes (some m) (some n) retries r1 r2 r3 =
        ⟨false, 1, 1, retries + 2⟩) := by
  refine ⟨?_, ?_, ?_⟩
  · intro h
    have hs : ∀ i, isSuccess (r1 i) = false :=
      fun i => isSuccess_false _ (h i).1 (h i).2.1
    have hT := phaseLoop_allTransient r1 mode_transient hs
      (fun i => (h i).2.2) (retries + 1) 0
    have harith : retries + 2 = 0 + (retries + 1) + 1 := by omega
    rw [harith]
    simp [update_all_nodes, hT]
  · intro h1 h
    have hp1 := phaseLoop_success r1 mode_transient 0 (retries + 1) (h1 0)
    have hs : ∀ i, isSuccess (r2 i) = false :=
      fun i => isSuccess_false _ (h i).1 (h i).2.1
    have hT := phaseLoop_allTransient r2 mode_transient hs
      (fun i => (h i).2.2) (retries + 1) 0
    have harith : retries + 2 = 0 + (retries + 1) + 1 := by omega
    rw [harith]
    simp [update_all_nodes, hp1, hT]
  · intro h1 h2 h
    have hp1 := phaseLoop_success r1 mode_transient 0 (retries + 1) (h1 0)
    have hp2 := phaseLoop_success r2 mode_transient 0 (retries + 1) (h2 0)
    have hs : ∀ i, isSuccess (r3 i) = false :=
      fun i => isSuccess_false _ (h i).1 (h i).2.1
    have hT := phaseLoop_allTransient r3 reinit_transient hs
      (fun i => (h i).2.2) (retries + 1) 0
    have harith : retries + 2 = 0 + (retries + 1) + 1 := by omega
    rw [harith]
    simp [update_all_nodes, hp1, hp2, hT]

/-- C1 witness: with capmc_retries = 1 and every response the transient
lookup failure, the MCDRAM phase runs the command exactly 3 = 1 + 2 times
and Apply fails. -/
theorem c1_retry_bound_witness :
    (∀ i, ((alwaysLookup i).status == 0) = false ∧
        containsCI (alwaysLookup i).output successChars = false ∧
        mode_transient (alwaysLookup i).output = true) ∧
    update_all_nodes (some ("cache".toList)) (some ("a2a".toList)) 1
        alwaysLookup alwaysOk alwaysOk = ⟨false, 3, 0, 0⟩ :=
  ⟨fun i => ⟨rfl, rfl, rfl⟩,
   (c1_retry_bound 1 ("cache".toList) ("a2a".toList)
       alwaysLookup alwaysOk alwaysOk).1
     (fun i => ⟨rfl, rfl, rfl⟩)⟩

/-- C1 counterexample to the claim as stated: with maxRetries = 0 and a
command that always reports the transient lookup pattern, the MCDRAM phase
runs the command 2 times (maxRetries + 2), not 0 + 1 = 1 time, before the
fatal error. -/
theorem c1_retry_counterexample :
    update_all_nodes (some ("cache".toList)) none 0 alwaysLookup
      alwaysOk alwaysOk = ⟨false, 2, 0, 0⟩ ∧ (2 : Nat) ≠ 0 + 1 := by
  decide

/-- C7: in every phase, a command result whose captured output contains the
"success" marker in any letter case is classified Success regardless of its
(possibly nonzero) exit status: the phase stops retrying at that attempt
with the same success outcome an exit status of 0 would produce. -/
theorem c7_success_marker (results : Nat → CmdResult)
    (transient : List Char → Bool) (idx b : Nat)
    (h : containsCI (results idx).output successChars = true) :
    phaseLoop results transient idx b = ⟨true, idx + 1, 0⟩ := by
  have hs : isSuccess (results idx) = true := by simp [isSuccess, h]
  exact phaseLoop_success results transient idx b hs

/-- A response stream whose every element exits 7 with a success marker. -/
def successDespite7 : Nat → CmdResult := fun _ => ⟨7, "xyz SUCCESS!".toList⟩

/-- C7 witness: exit status 7 with "SUCCESS" in the output is classified
Success on the first attempt. -/
theorem c7_success_marker_witness :
    containsCI (successDespite7 0).output successChars = true ∧
    phaseLoop successDespite7 mode_transient 0 4 = ⟨true, 1, 0⟩ :=
  ⟨by decide, c7_success_marker successDespite7 mode_transient 0 4 (by decide)⟩

/-- C8: the "Internal server error" pattern is retryable only in the
node_reinit phase: a nonzero-status result whose output contains it but
neither the lookup pattern nor a success marker makes a mode-setting phase
(classifying by mode_transient) fail fatally at that attempt with no retry,
while the node_reinit phase (classifying by reinit_transient) with retry
budget remaining performs the one-second sleep and retries at the next
attempt index. -/
theorem c8_ise_reinit_only (r : CmdResult) (res1 res3 : Nat → CmdResult)
    (idx b : Nat) (h1 : res1 idx = r) (h3 : res3 idx = r)
    (hnz : (r.status == 0) = false)
    (hise : containsSub r.output iseChars = true)
    (hncl : containsSub r.output lookupChars = false)
    (hns : containsCI r.output successChars = false) :
    phaseLoop res1 mode_transient idx b = ⟨false, idx + 1, 0⟩ ∧
    phaseLoop res3 reinit_transient idx (b + 1) =
      ⟨(phaseLoop res3 reinit_transient (idx + 1) b).ok,
       (phaseLoop res3 reinit_transient (idx + 1) b).attempts,
       (phaseLoop res3 reinit_transient (idx + 1) b).sleeps + 1⟩ := by
  have hsucc : isSuccess r = false := isSuccess_false r hnz hns
  have hmt : mode_transient r.output = false := by simp [mode_transient, hncl]
  have hrt : reinit_transient r.output = true := by simp [reinit_transient, hise]
  constructor
  · cases b with
    | zero => simp [phaseLoop, h1, hsucc]
    | succ b' => simp [phaseLoop, h1, hsucc, hmt]
  · simp [phaseLoop, h3, hsucc, hrt]

/-- The internal-server-error response used in the C8 witness. -/
def iseResult : CmdResult := ⟨1, "capmc: Internal server error".toList⟩

/-- A response stream whose every element is the internal-server-error
response. -/
def alwaysIse : Nat → CmdResult := fun _ => iseResult

/-- C8 witness: at a concrete internal-server-error response, the mode phase
fails fatally on the first attempt while the reinit phase retries. -/
theorem c8_ise_reinit_only_witness :
    ((iseResult.status == 0) = false ∧
     containsSub iseResult.output iseChars = true ∧
     containsSub iseResult.output lookupChars = false ∧
     containsCI iseResult.output successChars = false) ∧
    (phaseLoop alwaysIse mode_transient 0 3 = ⟨false, 1, 0⟩ ∧
     phaseLoop alwaysIse reinit_transient 0 3 =
       ⟨(phaseLoop alwaysIse reinit_transient 1 2).ok,
        (phaseLoop alwaysIse reinit_transient 1 2).attempts,
        (phaseLoop alwaysIse reinit_transient 1 2).sleeps + 1⟩) :=
  ⟨⟨by decide, by decide, by decide, by decide⟩,
   c8_ise_reinit_only iseResult alwaysIse alwaysIse 0 2 rfl rfl
     (by decide) (by decide) (by decide) (by decide)⟩

/-! ### Claims C5, C9, C10: convergence polling -/

/-- C9: each polling iteration sleeps pollFreq seconds and then runs the
status query; if that query exits nonzero, polling stops immediately: the
pending set is unchanged, the remaining trace is never consulted (so the
failure is not retried under the transient-retry policy), only this one
iteration was started, and the elapsed time grew by the sleep plus the
command's duration. -/
theorem c9_status_query_failure (pollFreq e0 : Nat) (pending : Finset Nat)
    (s : PollStep) (rest : List PollStep)
    (h1 : e0 < 1800) (h2 : pending ≠ ∅) (h3 : s.status ≠ 0) :
    wait_all_nodes_on pollFreq e0 pending (s :: rest) =
      (e0 + pollFreq + s.cmdSecs, pending, [e0]) := by
  rw [wait_all_nodes_on]
  rw [if_neg (show ¬(1800 ≤ e0 ∨ pending = ∅) by push_neg; exact ⟨by omega, h2⟩)]
  simp only [if_neg h3]

/-- The failing status-query step used in the C9 witness. -/
def c9step : PollStep := ⟨7, 2, some (some [1])⟩

/-- C9 witness: a nonzero status query at elapsed 0 stops the poller with
the singleton pending set unchanged, even though the trace has more steps. -/
theorem c9_status_query_failure_witness :
    ((0 : Nat) < 1800 ∧ ({1} : Finset Nat) ≠ ∅ ∧ c9step.status ≠ 0) ∧
    wait_all_nodes_on 45 0 {1} [c9step, ⟨0, 0, some (some [1])⟩] =
      (0 + 45 + c9step.cmdSecs, {1}, [0]) :=
  ⟨⟨by decide, by decide, by decide⟩,
   c9_status_query_failure 45 0 {1} c9step [⟨0, 0, some (some [1])⟩]
     (by decide) (by decide) (by decide)⟩

/-- C10: if the status query exits 0 but its output fails to parse as JSON
(parsed = none), polling stops immediately with the pending set unchanged
and the remaining trace unconsumed; by contrast a document that parses but
has no "on" key (parsed = some none) leaves the pending set unchanged for
that iteration yet polling continues into the rest of the trace. -/
theorem c10_parse_failure_stops (pollFreq e0 : Nat) (pending : Finset Nat)
    (s s2 : PollStep) (rest : List PollStep)
    (h1 : e0 < 1800) (h2 : pending ≠ ∅)
    (h3 : s.status = 0) (h4 : s.parsed = none)
    (h5 : s2.status = 0) (h6 : s2.parsed = some none) :
    wait_all_nodes_on pollFreq e0 pending (s :: rest) =
      (e0 + pollFreq + s.cmdSecs, pending, [e0]) ∧
    wait_all_nodes_on pollFreq e0 pending (s2 :: rest) =
      ((wait_all_nodes_on pollFreq (e0 + pollFreq + s2.cmdSecs) pending rest).1,
       (wait_all_nodes_on pollFreq (e0 + pollFreq + s2.cmdSecs) pending rest).2.1,
       e0 ::
         (wait_all_nodes_on pollFreq (e0 + pollFreq + s2.cmdSecs) pending
             rest).2.2) := by
  constructor
  · rw [wait_all_nodes_on]
    rw [if_neg (show ¬(1800 ≤ e0 ∨ pending = ∅) by push_neg; exact ⟨by omega, h2⟩)]
    simp only [if_pos h3, h4]
  · rw [wait_all_nodes_on]
    rw [if_neg (show ¬(1800 ≤ e0 ∨ pending = ∅) by push_neg; exact ⟨by omega, h2⟩)]
    simp only [if_pos h5, h6]
    rfl

/-- The parse-failure and missing-key steps used in the C10 witness. -/
def c10failStep : PollStep := ⟨3, 0, none⟩

/-- A step whose output parses but carries no "on" key. -/
def c10noKeyStep : PollStep := ⟨3, 0, some none⟩

/-- C10 witness: at concrete steps, a parse failure stops the poller with
pending unchanged while a parsed document without an "on" key lets it
continue into the rest of the trace. -/
theorem c10_parse_failure_stops_witness :
    ((0 : Nat) < 1800 ∧ ({1} : Finset Nat) ≠ ∅ ∧
     c10failStep.status = 0 ∧ c10failStep.parsed = none ∧
     c10noKeyStep.status = 0 ∧ c10noKeyStep.parsed = some none) ∧
    (wait_all_nodes_on 45 0 {1} [c10failStep, ⟨0, 0, some (some [1])⟩] =
      (0 + 45 + c10failStep.cmdSecs, {1}, [0]) ∧
     wait_all_nodes_on 45 0 {1} [c10noKeyStep, ⟨0, 0, some (some [1])⟩] =
      ((wait_all_nodes_on 45 (0 + 45 + c10noKeyStep.cmdSecs) {1}
          [⟨0, 0, some (some [1])⟩]).1,
       (wait_all_nodes_on 45 (0 + 45 + c10noKeyStep.cmdSecs) {1}
          [⟨0, 0, some (some [1])⟩]).2.1,
       0 :: (wait_all_nodes_on 45 (0 + 45 + c10noKeyStep.cmdSecs) {1}
          [⟨0, 0, some (some [1])⟩]).2.2)) :=
  ⟨⟨by decide, by decide, by decide, by decide, by decide, by decide⟩,
   c10_parse_failure_stops 45 0 {1} c10failStep c10noKeyStep
     [⟨0, 0, some (some [1])⟩] (by decide) (by decide) (by decide) (by decide)
     (by decide) (by decide)⟩

/-- C5 (amended): no polling iteration is ever started once 30 minutes have
elapsed (every recorded iteration start time is below 1800 seconds), and the
elapsed time at return exceeds the window by at most the duration of the
single iteration in flight when the window passed: it is bounded by
1799 + pollFreq + cBound whenever every status query takes at most cBound
seconds.  The return time is not bounded by the window itself: the final
iteration's sleep and query run to completion first. -/
theorem c5_deadline (pollFreq cBound : Nat) :
    ∀ (steps : List PollStep) (e0 : Nat) (pending : Finset Nat),
      (∀ s ∈ steps, s.cmdSecs ≤ cBound) →
      (∀ t ∈ (wait_all_nodes_on pollFreq e0 pending steps).2.2, t < 1800) ∧
      (wait_all_nodes_on pollFreq e0 pending steps).1 ≤
        max e0 (1799 + pollFreq + cBound) := by
  intro steps
  induction steps with
  | nil =>
    intro e0 pending hC
    rw [wait_all_nodes_on]
    by_cases hg : 1800 ≤ e0 ∨ pending = ∅
    · rw [if_pos hg]
      exact ⟨by simp, le_max_left _ _⟩
    · rw [if_neg hg]
      exact ⟨by simp, le_max_left _ _⟩
  | cons s rest ih =>
    intro e0 pending hC
    rw [wait_all_nodes_on]
    by_cases hg : 1800 ≤ e0 ∨ pending = ∅
    · rw [if_pos hg]
      exact ⟨by simp, le_max_left _ _⟩
    · rw [if_neg hg]
      push_neg at hg
      have he0 : e0 < 1800 := by omega
      have hcs : s.cmdSecs ≤ cBound := hC s (by simp)
      by_cases hst : s.status = 0
      · simp only [if_pos hst]
        cases hp : s.parsed with
        | none =>
          simp only
          constructor
          · intro t ht
            simp at ht
            omega
          · have : e0 + pollFreq + s.cmdSecs ≤ 1799 + pollFreq + cBound := by
              omega
            exact le_trans this (le_max_right _ _)
        | some doc =>
          simp only
          have hrec := ih (e0 + pollFreq + s.cmdSecs)
            (clearNids pending (doc.getD []))
            (fun q hq => hC q (List.mem_cons_of_mem s hq))
          constructor
          · intro t ht
            simp only [List.mem_cons] at ht
            rcases ht with rfl | ht
            · exact he0
            · exact hrec.1 t ht
          · have h2 := hrec.2
            have : e0 + pollFreq + s.cmdSecs ≤ 1799 + pollFreq + cBound := by
              omega
            omega
      · simp only [if_neg hst]
        constructor
        · intro t ht
          simp at ht
          omega
        · have : e0 + pollFreq + s.cmdSecs ≤ 1799 + pollFreq + cBound := by
            omega
          exact le_trans this (le_max_right _ _)

/-- The trace used in the C5 witness: two successful empty polls of 60
seconds each. -/
def c5steps : List PollStep := [⟨60, 0, some none⟩, ⟨60, 0, some none⟩]

/-- C5 witness: with poll frequency 45 and queries of at most 60 seconds,
every started iteration begins before 1800 seconds and the return time is
within the stated bound. -/
theorem c5_deadline_witness :
    (∀ s ∈ c5steps, s.cmdSecs ≤ 60) ∧
    ((∀ t ∈ (wait_all_nodes_on 45 0 {1} c5steps).2.2, t < 1800) ∧
     (wait_all_nodes_on 45 0 {1} c5steps).1 ≤ max 0 (1799 + 45 + 60)) :=
  ⟨by decide, c5_deadline 45 60 c5steps 0 {1} (by decide)⟩

/-- C5 counterexample to the claim as stated: with a configured poll
frequency of 3600 seconds, a poller started with one pending node returns
only at elapsed time 3600 seconds, well past the fixed 1800-second window,
so the return is not bounded by the window regardless of poll frequency. -/
theorem c5_deadline_counterexample :
    wait_all_nodes_on 3600 0 {1} [⟨0, 0, some (some [])⟩] = (3600, {1}, [0]) ∧
    ¬((3600 : Nat) ≤ 1800) := by
  decide

/-! ### Claims C3, C4: orchestration in main -/

/-- True for a job-requeue request event. -/
def isRequeueEvent : Event → Bool
  | Event.requeue _ => true
  | _ => false

/-- C4: when Apply returns a fatal error, main issues exactly one
job-requeue request if and only if a (nonzero) job id is available from the
SLURM_JOB_ID environment variable, issues exactly one node-state revert
request, never invokes the convergence poller, and exits 1 regardless of
whether the requeue, revert or feature collaborator calls succeed (their
result fields are unconstrained). -/
theorem c4_compensation (env : MainEnv) (hfail : (mainApply env).ok = false) :
    ((main_run env).events.filter (fun e => isRequeueEvent e)).length =
      (if envJobId env ≠ 0 then 1 else 0) ∧
    (main_run env).events.count Event.revertNodes = 1 ∧
    Event.pollStart ∉ (main_run env).events ∧
    (main_run env).exitCode = 1 := by
  rw [main_run, if_pos hfail]
  by_cases hj : envJobId env ≠ 0
  · simp [hj, isRequeueEvent, List.count_cons]
  · push_neg at hj
    simp [hj, isRequeueEvent, List.count_cons]

/-- The environment used in the C4 witness: no feature argument, job id 123
in the environment, and a reboot command that fails fatally at once; the
requeue and revert collaborators themselves fail, which must not affect the
outcome. -/
def envC4 : MainEnv :=
  ⟨"nid00[1-2]".toList, none, some ("123".toList), 0, alwaysOk, alwaysOk,
   fun _ => ⟨1, "boom".toList⟩, 45, [], false, false, true⟩

/-- C4 witness: at the concrete failing environment, main issues one
requeue (job id 123 is available), one revert, no poll, and exits 1. -/
theorem c4_compensation_witness :
    (mainApply envC4).ok = false ∧
    (((main_run envC4).events.filter (fun e => isRequeueEvent e)).length =
        (if envJobId envC4 ≠ 0 then 1 else 0) ∧
      (main_run envC4).events.count Event.revertNodes = 1 ∧
      Event.pollStart ∉ (main_run envC4).events ∧
      (main_run envC4).exitCode = 1) :=
  ⟨by decide, c4_compensation envC4 (by decide)⟩

/-- C3 (amended): on the success path with a feature-change argument
supplied, main issues the feature-set request immediately after Apply
succeeds and before the convergence poller runs: the external-request trace
is exactly [setFeatures, pollStart], so the feature update precedes polling
rather than following it. -/
theorem c3_feature_before_poll (env : MainEnv)
    (hok : (mainApply env).ok = true) (hfeat : env.featureToks.isSome = true) :
    (main_run env).events = [Event.setFeatures, Event.pollStart] := by
  rw [main_run, if_neg (by simp [hok])]
  simp [hfeat]

/-- The successful environment with a feature argument used for C3. -/
def envC3 : MainEnv :=
  ⟨"nid00[1-2]".toList, some [("flat".toList)], none, 0, alwaysOk, alwaysOk,
   alwaysOk, 45, [], true, true, true⟩

/-- C3 witness: at the concrete successful environment the trace is exactly
the feature-set request followed by the poller run. -/
theorem c3_feature_before_poll_witness :
    ((mainApply envC3).ok = true ∧ envC3.featureToks.isSome = true) ∧
    (main_run envC3).events = [Event.setFeatures, Event.pollStart] :=
  ⟨⟨by decide, by decide⟩,
   c3_feature_before_poll envC3 (by decide) (by decide)⟩

/-- C3 counterexample to the claim as stated: in a successful run with a
feature argument, the first request main issues is the feature-set request,
before the poller has run at all, contradicting that the feature request is
issued only after WaitForAllOn has returned. -/
theorem c3_feature_after_poll_counterexample :
    (main_run envC3).events = [Event.setFeatures, Event.pollStart] ∧
    (main_run envC3).events.head? = some Event.setFeatures ∧
    (main_run envC3).events.head? ≠ some Event.pollStart := by
  decide
